import Mathlib

/-!
# MintApex: a shallow embedding of `main.js`

The script is JavaScript running against the ethers library.  The embedding keeps

* JavaScript values (`JsVal`) with their truthiness, so that `a || b` is the source operator;
* ethers `BigNumber` objects, with the relational operators `<`, `>`, `>=` as JavaScript
  applies them to objects (both operands are converted with `toString()` and the two decimal
  strings are compared by code unit) and with the numeric test `isZero()`;
* `async` functions as runs: the ordered trace of external calls and console lines a call
  produces, together with its completion (a returned value or a thrown value);
* `try`/`catch`, with handlers that read `error.message` exactly where the source does.
-/

namespace MintApex

/-! ## JavaScript values -/

/-- A JavaScript value as it occurs in the fields of `config.json`, in the tokens of
`mintParams`, in the argument list of the mint call and as the result of a status method.
`undefined` is what reading an absent field yields.  Numbers are the integers; arrays and
objects, which are truthy and equal to no string, are left out. -/
inductive JsVal where
  | undefined
  | null
  | bool (b : Bool)
  | num (n : Int)
  | str (s : String)
  deriving DecidableEq

/-- JavaScript `ToBoolean`: `undefined`, `null`, `false`, `0` and the empty string are falsy. -/
def JsVal.truthy : JsVal → Bool
  | .undefined => false
  | .null => false
  | .bool b => b
  | .num n => n != 0
  | .str s => s != ""

/-- The JavaScript operator `a || b`: `a` when it is truthy, `b` otherwise. -/
def JsVal.or (a b : JsVal) : JsVal :=
  if a.truthy then a else b

/-- The constant `ethers.constants.HashZero`: 32 zero bytes in hexadecimal. -/
def HashZero : JsVal :=
  .str "0x0000000000000000000000000000000000000000000000000000000000000000"

/-! ## Big numbers -/

/-- An ethers `BigNumber` object, identified with the integer it holds. -/
structure BigNumber where
  value : Int
  deriving DecidableEq

/-- The method `BigNumber.prototype.toString()`: the decimal numeral, as its characters. -/
def BigNumber.toString (b : BigNumber) : List Char :=
  if b.value < 0 then '-' :: Nat.toDigits 10 b.value.natAbs else Nat.toDigits 10 b.value.natAbs

/-- The method `BigNumber.prototype.isZero()`. -/
def BigNumber.isZero (b : BigNumber) : Bool :=
  b.value == 0

/-- JavaScript comparison of two strings: lexicographic by code unit, a proper prefix first.
The strings compared in this program are decimal numerals, whose characters are single
code units. -/
def stringLt : List Char → List Char → Bool
  | [], [] => false
  | [], _ :: _ => true
  | _ :: _, [] => false
  | a :: as, b :: bs =>
    if a.toNat < b.toNat then true
    else if b.toNat < a.toNat then false
    else stringLt as bs

/-- The expression `a < b` on two `BigNumber` objects.  The class defines `toString` and no
`valueOf`, so both operands become their decimal strings and the strings are compared. -/
def BigNumber.lt (a b : BigNumber) : Bool :=
  stringLt a.toString b.toString

/-- The expression `a > b` on two `BigNumber` objects: the string comparison `b < a`. -/
def BigNumber.gt (a b : BigNumber) : Bool :=
  stringLt b.toString a.toString

/-- The expression `a >= b` on two `BigNumber` objects: the negation of the string
comparison `a < b`. -/
def BigNumber.ge (a b : BigNumber) : Bool :=
  !stringLt a.toString b.toString

/-! ## Thrown values, events and runs -/

/-- A value caught by a `catch` clause.  JavaScript lets any value be thrown: `nullish` is
`null` or `undefined`; every other value is described by what reading its `message` property
gives, a string (as for every `Error` object) or nothing (a thrown string, number or plain
object). -/
inductive Thrown where
  | nullish
  | value (message : Option String)
  deriving DecidableEq

/-- The `TypeError` the runtime raises when a property of `undefined` or `null` is read. -/
def typeError : Thrown :=
  .value (some "TypeError: cannot read properties of undefined")

/-- The `Error` object with which reading a file fails. -/
structure LibError where
  message : String
  deriving DecidableEq

/-- The options object passed after the positional arguments of the mint call. -/
structure Overrides where
  gasLimit : JsVal
  gasPrice : BigNumber
  value : BigNumber
  deriving DecidableEq

/-- A console line, one constructor for each `console.log` or `console.error` of the source. -/
inductive Log where
  | gasPriceFailed (message : Option String)
  | mintFinished (phaseID : JsVal)
  | statusNotFound
  | statusFailed (phaseID : JsVal) (message : Option String)
  | statusHint
  | mintAttempt (mintQuantity : JsVal) (walletAddress : JsVal)
  | txSent (hash : String)
  | mintSucceeded (walletAddress : JsVal) (transactionHash : String)
  | mintFailed (walletAddress : JsVal) (message : Option String)
  | phaseHint
  | processing (position total : Nat) (address : JsVal)
  | zeroBalance (address : JsVal)
  | waiting (delayMs : JsVal)
  | walletError (position : Nat) (message : Option String)
  | done
  deriving DecidableEq

/-- An observable step of a run: an awaited external call or a console line. -/
inductive Ev where
  | getGasPrice
  | mintingStarted
  | isPublicMintActive
  | mintedTotal (phaseID : JsVal)
  | supply
  | parseUnits (maxGasPriceGwei : JsVal)
  | parseEther (mintValue : JsVal)
  | contractCall (mintFunction : JsVal) (params : List JsVal) (overrides : Overrides)
  | txWait (hash : String)
  | newWallet (privateKey : String)
  | getBalance (address : JsVal)
  | mintNfts (address : JsVal)
  | delay (ms : JsVal)
  | log (line : Log)
  deriving DecidableEq

deriving instance DecidableEq for Except

/-- A run of an `async` function: what it did, in order, and how it completed. -/
structure Run (α : Type) where
  trace : List Ev
  result : Except Thrown α
  deriving DecidableEq

/-- A run that returns at once. -/
def Run.pure {α : Type} (a : α) : Run α :=
  ⟨[], .ok a⟩

/-- Sequencing: the second part runs only when the first returned. -/
def Run.bind {α β : Type} (m : Run α) (f : α → Run β) : Run β :=
  match m.result with
  | .ok a => ⟨m.trace ++ (f a).trace, (f a).result⟩
  | .error e => ⟨m.trace, .error e⟩

instance : Monad Run where
  pure := Run.pure
  bind := Run.bind

/-- A console line. -/
def say (line : Log) : Run Unit :=
  ⟨[.log line], .ok ()⟩

/-- An awaited external call with the given outcome. -/
def perform {α : Type} (call : Ev) (outcome : Except Thrown α) : Run α :=
  ⟨[call], outcome⟩

/-- The statement `throw e`, or an expression whose evaluation raises `e`. -/
def raise {α : Type} (e : Thrown) : Run α :=
  ⟨[], .error e⟩

/-- The statement `try body catch (error) handler`. -/
def tryCatch {α : Type} (body : Run α) (handler : Thrown → Run α) : Run α :=
  match body.result with
  | .ok a => ⟨body.trace, .ok a⟩
  | .error e => ⟨body.trace ++ (handler e).trace, (handler e).result⟩

/-- The expression `error.message`: a `TypeError` when `error` is `null` or `undefined`. -/
def readMessage (error : Thrown) : Run (Option String) :=
  match error with
  | .nullish => raise typeError
  | .value message => Run.pure message

/-- The method call `text.includes(part)` on a string. -/
def includes (text part : String) : Bool :=
  text.toList.tails.any (fun rest => part.toList.isPrefixOf rest)

/-- The expression `error.message.includes(part)` once `error.message` has been read: a
`TypeError` when the message is `undefined`. -/
def messageIncludes (message : Option String) (part : String) : Run Bool :=
  match message with
  | none => raise typeError
  | some text => Run.pure (includes text part)

/-! ## getOptimalGasPrice -/

/-- The function `getOptimalGasPrice(provider, maxGasPrice)` (lines 65 to 73).  The provider
is given by the outcome of its `getGasPrice()` call. -/
def getOptimalGasPrice (getGasPrice : Except Thrown BigNumber) (maxGasPrice : BigNumber) :
    Run BigNumber :=
  tryCatch
    (do
      let gasPrice ← perform .getGasPrice getGasPrice
      pure (if gasPrice.gt maxGasPrice then maxGasPrice else gasPrice))
    (fun error => do
      let message ← readMessage error
      say (.gasPriceFailed message)
      pure maxGasPrice)

/-! ## Configuration and the objects handed to the functions -/

/-- The fields of `config.json` that the embedded functions read.  An absent field is
`undefined`. -/
structure Config where
  mintFunction : JsVal
  mintParams : List JsVal
  mintQuantity : JsVal
  mintValue : JsVal
  gasLimit : JsVal
  maxGasPriceGwei : JsVal
  delayMs : JsVal
  phaseID : JsVal
  price : JsVal
  maxPerTx : JsVal
  maxPerUser : JsVal
  maxPerPhase : JsVal
  nonce : JsVal
  signature : JsVal

/-- A submitted transaction: its hash and the outcome of `tx.wait()`, the hash recorded in
the receipt. -/
structure Tx where
  hash : String
  wait : Except Thrown String

/-- The contract binding: which status methods exist (`none` when `typeof contract.m` is not
`function`) and what a call of each yields, and, for a property name `f`, the member
`contract.connect(wallet)[f]`: `none` when it is not a function, otherwise what calling it
with the given arguments and options yields. -/
structure Contract where
  mintingStarted : Option (Except Thrown JsVal)
  isPublicMintActive : Option (Except Thrown JsVal)
  mintedTotal : Option (JsVal → Except Thrown BigNumber)
  supply : Option (Except Thrown BigNumber)
  method : JsVal → Option (List JsVal → Overrides → Except Thrown Tx)

/-- A wallet: its address and the outcome of `wallet.provider.getGasPrice()`. -/
structure Wallet where
  address : JsVal
  getGasPrice : Except Thrown BigNumber

/-- The two conversions of `ethers.utils` that `mintNfts` calls: `parseUnits` stands for
`parseUnits(v.toString(), "gwei")`, `parseEther` for `parseEther(v)`. -/
structure Utils where
  parseUnits : JsVal → Except Thrown BigNumber
  parseEther : JsVal → Except Thrown BigNumber

/-! ## isMintActive -/

/-- The function `isMintActive(contract, config)` (lines 76 to 99). -/
def isMintActive (contract : Contract) (config : Config) : Run JsVal :=
  tryCatch
    (match contract.mintingStarted with
      | some outcome => perform .mintingStarted outcome
      | none =>
        match contract.isPublicMintActive with
        | some outcome => perform .isPublicMintActive outcome
        | none =>
          match contract.mintedTotal, contract.supply with
          | some mintedTotal, some supplyOutcome => do
            let phaseID := config.phaseID.or HashZero
            let minted ← perform (.mintedTotal phaseID) (mintedTotal phaseID)
            let supply ← perform .supply supplyOutcome
            if minted.ge supply then say (.mintFinished phaseID)
            pure (.bool (minted.lt supply))
          | _, _ => do
            say .statusNotFound
            pure (.bool true))
    (fun error => do
      let message ← readMessage error
      say (.statusFailed config.phaseID message)
      say .statusHint
      pure (.bool false))

/-! ## mintNfts -/

/-- The callback of `config.mintParams.map` (lines 107 to 118): the value substituted for one
token. -/
def mintParam (wallet : Wallet) (config : Config) (param : JsVal) : JsVal :=
  if param = .str "to" then wallet.address
  else if param = .str "amount" ∨ param = .str "quantity" then config.mintQuantity
  else if param = .str "phaseID" then config.phaseID.or HashZero
  else if param = .str "price" then config.price.or (.num 0)
  else if param = .str "maxPerTx" then config.maxPerTx.or config.mintQuantity
  else if param = .str "maxPerUser" then config.maxPerUser.or config.mintQuantity
  else if param = .str "maxPerPhase" then config.maxPerPhase.or (.num 10000)
  else if param = .str "nonce" then config.nonce.or HashZero
  else if param = .str "signature" then config.signature.or (.str "0x")
  else param

/-- The argument list `params` that `mintNfts` builds. -/
def mintParams (wallet : Wallet) (config : Config) : List JsVal :=
  config.mintParams.map (mintParam wallet config)

/-- The function `mintNfts(wallet, contract, walletAddress, config)` (lines 102 to 136).
The arguments of the mint call are evaluated in source order: the positional arguments, then
the gas price (conversion of the ceiling, then `getOptimalGasPrice`), then the value; only
then is the callee applied, which raises a `TypeError` when it is not a function. -/
def mintNfts (utils : Utils) (wallet : Wallet) (contract : Contract) (walletAddress : JsVal)
    (config : Config) : Run Unit :=
  tryCatch
    (do
      say (.mintAttempt config.mintQuantity walletAddress)
      let params := mintParams wallet config
      let maxGasPrice ←
        perform (.parseUnits config.maxGasPriceGwei) (utils.parseUnits config.maxGasPriceGwei)
      let gasPrice ← getOptimalGasPrice wallet.getGasPrice maxGasPrice
      let value ← perform (.parseEther config.mintValue) (utils.parseEther config.mintValue)
      let overrides : Overrides := ⟨config.gasLimit, gasPrice, value⟩
      let tx ←
        match contract.method config.mintFunction with
        | none => raise typeError
        | some call =>
          perform (.contractCall config.mintFunction params overrides) (call params overrides)
      say (.txSent tx.hash)
      let transactionHash ← perform (.txWait tx.hash) tx.wait
      say (.mintSucceeded walletAddress transactionHash))
    (fun error => do
      let message ← readMessage error
      say (.mintFailed walletAddress message)
      let hint ← messageIncludes message "phaseID"
      if hint then say .phaseHint)

/-! ## The wallet loop of main -/

/-- What the outside world answers during one iteration of the wallet loop: the outcome of
`new ethers.Wallet(privateKey, provider)`, the outcome of
`provider.getBalance(wallet.address)`, and the conversions and the contract as `mintNfts`
finds them. -/
structure Iteration where
  newWallet : Except Thrown Wallet
  getBalance : Except Thrown BigNumber
  utils : Utils
  contract : Contract

/-- The body of the `for` loop of `main` (lines 172 to 194) for loop counter `i`, with
`total = privateKeys.length`.  `continue` inside the `try` block leaves the block without
running its remainder; the call of `mintNfts` is marked by the event `Ev.mintNfts`. -/
def processWallet (config : Config) (total i : Nat) (privateKey : String) (world : Iteration) :
    Run Unit :=
  tryCatch
    (do
      let wallet ← perform (.newWallet privateKey) world.newWallet
      say (.processing (i + 1) total wallet.address)
      let balance ← perform (.getBalance wallet.address) world.getBalance
      if balance.isZero then
        say (.zeroBalance wallet.address)
      else do
        perform (.mintNfts wallet.address) (.ok ())
        mintNfts world.utils wallet world.contract wallet.address config
        if i < total - 1 then do
          say (.waiting config.delayMs)
          perform (.delay config.delayMs) (.ok ()))
    (fun error => do
      let message ← readMessage error
      say (.walletError (i + 1) message))

/-- A run of `main`: every event carries the value of the loop counter `i` at the time it
happened. -/
structure MainRun where
  trace : List (Nat × Ev)
  result : Except Thrown Unit
  deriving DecidableEq

/-- The `for` loop of `main` (line 171) from counter `i` on, over the keys not yet
processed. -/
def walletLoop (config : Config) (total : Nat) (world : Nat → Iteration) :
    Nat → List String → MainRun
  | _, [] => ⟨[], .ok ()⟩
  | i, privateKey :: rest =>
    let step := processWallet config total i privateKey (world i)
    match step.result with
    | .ok _ =>
      let later := walletLoop config total world (i + 1) rest
      ⟨step.trace.map (fun e => (i, e)) ++ later.trace, later.result⟩
    | .error e => ⟨step.trace.map (fun e => (i, e)), .error e⟩

/-- The function `main` from the wallet loop on (lines 170 to 197): the loop over
`privateKeys`, then the completion banner.  `world i` is what the outside world answers
during iteration `i`.  The part of `main` before the loop (loading, prompt, polling) is not
embedded. -/
def main (config : Config) (privateKeys : List String) (world : Nat → Iteration) : MainRun :=
  let loop := walletLoop config privateKeys.length world 0 privateKeys
  match loop.result with
  | .ok _ => ⟨loop.trace ++ [(privateKeys.length, .log .done)], .ok ()⟩
  | .error e => ⟨loop.trace, .error e⟩

/-! ## loadPrivateKeys -/

/-- The method call `text.split(sep)` for a one-character separator, on the characters. -/
def splitChars (sep : Char) : List Char → List (List Char)
  | [] => [[]]
  | c :: cs =>
    if c = sep then [] :: splitChars sep cs
    else
      match splitChars sep cs with
      | [] => [[c]]
      | line :: lines => (c :: line) :: lines

/-- The characters `String.prototype.trim` strips: JavaScript white space and line
terminators. -/
def isWhiteSpace (c : Char) : Bool :=
  c.toNat ∈ [0x09, 0x0A, 0x0B, 0x0C, 0x0D, 0x20, 0xA0, 0x1680, 0x2000, 0x2001, 0x2002, 0x2003,
    0x2004, 0x2005, 0x2006, 0x2007, 0x2008, 0x2009, 0x200A, 0x2028, 0x2029, 0x202F, 0x205F,
    0x3000, 0xFEFF]

/-- The method `String.prototype.trim`, on the characters. -/
def trimChars (cs : List Char) : List Char :=
  ((cs.dropWhile isWhiteSpace).reverse.dropWhile isWhiteSpace).reverse

/-- The method call `data.split(sep)`. -/
def split (data : String) (sep : Char) : List String :=
  (splitChars sep data.toList).map String.mk

/-- The method call `key.trim()`. -/
def trim (key : String) : String :=
  String.mk (trimChars key.toList)

/-- How `loadPrivateKeys` ends: with the list of keys, or in `process.exit(code)` after one
console line. -/
inductive Loaded where
  | keys (privateKeys : List String)
  | exit (message : String) (code : Nat)
  deriving DecidableEq

/-- The function `loadPrivateKeys()` (lines 29 to 37), given the outcome of reading
`PrivateKeys.txt`.  A non-empty string is truthy, so the filter keeps the keys that are not
the empty string. -/
def loadPrivateKeys (readFile : Except LibError String) : Loaded :=
  match readFile with
  | .ok data => .keys (((split data (Char.ofNat 10)).map (fun key => trim key)).filter
      (fun key => (JsVal.str key).truthy))
  | .error error => .exit error.message 1

/-! ## Vocabulary of the statements -/

/-- The status calls among the events. -/
def Ev.isStatusCall : Ev → Bool
  | .mintingStarted => true
  | .isPublicMintActive => true
  | .mintedTotal _ => true
  | .supply => true
  | _ => false

/-- The tokens of `mintParams` that the substitution recognises. -/
def recognisedTokens : List JsVal :=
  [.str "to", .str "amount", .str "quantity", .str "phaseID", .str "price", .str "maxPerTx",
    .str "maxPerUser", .str "maxPerPhase", .str "nonce", .str "signature"]

/-- The substitution rule in the words of the specification, "the configured value or the
default": the field when the configuration has it, the default when it is absent. -/
def configuredOr (field fallback : JsVal) : JsVal :=
  if field = .undefined then fallback else field

/-- The value the specification assigns to one token of `mintParams`, with `configuredOr` for
every rule of the form "the configured value or a default". -/
def claimedParam (wallet : Wallet) (config : Config) (token : JsVal) : JsVal :=
  if token = .str "to" then wallet.address
  else if token = .str "amount" ∨ token = .str "quantity" then config.mintQuantity
  else if token = .str "phaseID" then configuredOr config.phaseID HashZero
  else if token = .str "price" then configuredOr config.price (.num 0)
  else if token = .str "maxPerTx" then configuredOr config.maxPerTx config.mintQuantity
  else if token = .str "maxPerUser" then configuredOr config.maxPerUser config.mintQuantity
  else if token = .str "maxPerPhase" then configuredOr config.maxPerPhase (.num 10000)
  else if token = .str "nonce" then configuredOr config.nonce HashZero
  else if token = .str "signature" then configuredOr config.signature (.str "0x")
  else token

/-- Whether the status call `e`, made on this contract, throws. -/
def Contract.threwAt (c : Contract) : Ev → Bool
  | .mintingStarted =>
    match c.mintingStarted with
    | some (.error _) => true
    | _ => false
  | .isPublicMintActive =>
    match c.isPublicMintActive with
    | some (.error _) => true
    | _ => false
  | .mintedTotal phaseID =>
    match c.mintedTotal with
    | some f =>
      match f phaseID with
      | .error _ => true
      | .ok _ => false
    | none => false
  | .supply =>
    match c.supply with
    | some (.error _) => true
    | _ => false
  | _ => false

/-- Whether the outcome of a status call is a returned boolean, a returned big number or a
thrown value other than `null` and `undefined`. -/
def regularOutcome {α : Type} (isRegular : α → Bool) : Except Thrown α → Bool
  | .ok v => isRegular v
  | .error .nullish => false
  | .error (.value _) => true

/-- Whether a value is a boolean. -/
def JsVal.isBool : JsVal → Bool
  | .bool _ => true
  | _ => false

/-- Whether the status call `e`, made on this contract, answers as a status method of the
expected shape does: `mintingStarted` and `isPublicMintActive` return a boolean, and no call
throws `null` or `undefined`. -/
def Contract.regularAt (c : Contract) : Ev → Bool
  | .mintingStarted =>
    match c.mintingStarted with
    | some outcome => regularOutcome JsVal.isBool outcome
    | none => true
  | .isPublicMintActive =>
    match c.isPublicMintActive with
    | some outcome => regularOutcome JsVal.isBool outcome
    | none => true
  | .mintedTotal phaseID =>
    match c.mintedTotal with
    | some f => regularOutcome (fun _ => true) (f phaseID)
    | none => true
  | .supply =>
    match c.supply with
    | some outcome => regularOutcome (fun _ => true) outcome
    | none => true
  | _ => true

/-- The mint calls among the events. -/
def Ev.isContractCall : Ev → Bool
  | .contractCall _ _ _ => true
  | _ => false

/-- Whether reading `message` on a thrown value gives a string, as it does for every `Error`
object. -/
def Thrown.hasMessage : Thrown → Bool
  | .value (some _) => true
  | _ => false

/-- The console lines of the `catch` clause of `mintNfts` for an error with the given
message: the failure line, and the hint when the message contains `phaseID`. -/
def failureLines (walletAddress : JsVal) (message : String) : List Ev :=
  .log (.mintFailed walletAddress (some message)) ::
    (if includes message "phaseID" then [.log .phaseHint] else [])

/-- Every call that `mintNfts` makes directly (the two conversions, the mint call and the
confirmation wait) throws, when it throws, a value whose `message` is a string. -/
def throwsErrorObjects (utils : Utils) (contract : Contract) (config : Config) : Prop :=
  (∀ e, utils.parseUnits config.maxGasPriceGwei = .error e → e.hasMessage = true) ∧
  (∀ e, utils.parseEther config.mintValue = .error e → e.hasMessage = true) ∧
  (∀ call params overrides e, contract.method config.mintFunction = some call →
    call params overrides = .error e → e.hasMessage = true) ∧
  (∀ call params overrides tx e, contract.method config.mintFunction = some call →
    call params overrides = .ok tx → tx.wait = .error e → e.hasMessage = true)

/-- The events that the wallet loop itself produces and the statements about it count: the
wallet derivation, the call of `mintNfts`, the delay and the completion banner. -/
def Ev.isLoopStep : Ev → Bool
  | .newWallet _ => true
  | .mintNfts _ => true
  | .delay _ => true
  | .log .done => true
  | _ => false

/-- The key of a wallet derivation event. -/
def Ev.newWalletKey : Ev → Option String
  | .newWallet privateKey => some privateKey
  | _ => none

/-- The calls of `mintNfts` among the events. -/
def Ev.isMintNfts : Ev → Bool
  | .mintNfts _ => true
  | _ => false

/-- The sleeps among the events. -/
def Ev.isDelay : Ev → Bool
  | .delay _ => true
  | _ => false

/-- The addresses handed to `mintNfts` in an iteration: the address of the wallet when its
derivation and its balance lookup succeed and the balance is not zero, none otherwise. -/
def mintedBy (world : Iteration) : List JsVal :=
  match world.newWallet, world.getBalance with
  | .ok wallet, .ok balance => if balance.value = 0 then [] else [wallet.address]
  | _, _ => []

/-- Whether an iteration gets as far as the delay test: the wallet is derived, its balance is
fetched and is not zero, and the call of `mintNfts` returns normally. -/
def reachesDelay (config : Config) (world : Iteration) : Bool :=
  match world.newWallet, world.getBalance with
  | .ok wallet, .ok balance =>
    balance.value ≠ 0 ∧
      (mintNfts world.utils wallet world.contract wallet.address config).result = .ok ()
  | _, _ => false

/-- Whether an iteration ends with its `catch` clause raising at `error.message`: the wallet
derivation threw `null` or `undefined`, or the wallet was derived and the balance lookup threw
`null` or `undefined`. -/
def Iteration.aborts (world : Iteration) : Bool :=
  match world.newWallet, world.getBalance with
  | .error .nullish, _ => true
  | .ok _, .error .nullish => true
  | _, _ => false

/-- Whether none of the `n` iterations from counter `s` on aborts. -/
def completeFrom (world : Nat → Iteration) : Nat → Nat → Bool
  | _, 0 => true
  | s, n + 1 => !(world s).aborts && completeFrom world (s + 1) n

/-- The wallet derivations among the events of `main`, with the loop counter and the key. -/
def newWalletAt (p : Nat × Ev) : Option (Nat × String) :=
  p.2.newWalletKey.map (fun privateKey => (p.1, privateKey))

/-- Whether a line consists of white space only (the empty line included). -/
def isBlank (line : String) : Bool :=
  line.toList.all isWhiteSpace

/-! ## Concrete inputs -/

/-- A configuration with `mintParams = ["to", "amount", "price"]`, `mintQuantity = 3`, a gas
price ceiling of 20 gwei and no optional field. -/
def sampleConfig : Config where
  mintFunction := .str "mint"
  mintParams := [.str "to", .str "amount", .str "price"]
  mintQuantity := .num 3
  mintValue := .str "0"
  gasLimit := .num 300000
  maxGasPriceGwei := .num 20
  delayMs := .num 1000
  phaseID := .undefined
  price := .undefined
  maxPerTx := .undefined
  maxPerUser := .undefined
  maxPerPhase := .undefined
  nonce := .undefined
  signature := .undefined

/-- The configuration `sampleConfig` with `mintParams = ["maxPerTx"]` and `maxPerTx = 0`. -/
def zeroCapConfig : Config :=
  { sampleConfig with mintParams := [.str "maxPerTx"], maxPerTx := .num 0 }

/-- A contract binding with the given status methods and a mint method `mint` whose call
has the given outcome. -/
def sampleContract (mintingStarted : Option (Except Thrown JsVal))
    (mintedTotal supply : Option (Except Thrown BigNumber)) (mint : Except Thrown Tx) :
    Contract where
  mintingStarted := mintingStarted
  isPublicMintActive := none
  mintedTotal := mintedTotal.map (fun outcome _ => outcome)
  supply := supply
  method := fun name => if name = .str "mint" then some (fun _ _ => mint) else none

/-- A transaction that is confirmed. -/
def sampleTx : Tx :=
  ⟨"0x01", .ok "0x01"⟩

/-- A wallet whose provider reports a gas price of 100 gwei. -/
def sampleWallet : Wallet :=
  ⟨.str "0xa1", .ok ⟨100000000000⟩⟩

/-- The conversions at `sampleConfig`: 20 gwei and a value of zero. -/
def sampleUtils : Utils :=
  ⟨fun _ => .ok ⟨20000000000⟩, fun _ => .ok ⟨0⟩⟩

/-- An iteration in which the wallet derivation and the balance lookup have the given
outcomes and the mint is confirmed. -/
def sampleIteration (newWallet : Except Thrown Wallet) (getBalance : Except Thrown BigNumber) :
    Iteration :=
  ⟨newWallet, getBalance, sampleUtils, sampleContract none none none (.ok sampleTx)⟩

/-- Three iterations: a wallet with zero balance, a wallet whose derivation fails with an
`Error` object, a funded wallet. -/
def sampleWorld (i : Nat) : Iteration :=
  if i = 0 then sampleIteration (.ok sampleWallet) (.ok ⟨0⟩)
  else if i = 1 then sampleIteration (.error (.value (some "invalid private key"))) (.ok ⟨5⟩)
  else sampleIteration (.ok sampleWallet) (.ok ⟨5⟩)

/-- Iterations for funded wallets, except that the balance lookup of the first throws
`undefined`. -/
def abortingWorld (i : Nat) : Iteration :=
  if i = 0 then sampleIteration (.ok sampleWallet) (.error .nullish)
  else sampleIteration (.ok sampleWallet) (.ok ⟨5⟩)

/-! ## The run monad -/

/-- Sequencing in `do` blocks is `Run.bind`. -/
theorem run_bind_eq {α β : Type} (m : Run α) (f : α → Run β) : m >>= f = Run.bind m f := rfl

/-- Returning in `do` blocks is `Run.pure`. -/
theorem run_pure_eq {α : Type} (a : α) : (pure a : Run α) = Run.pure a := rfl

/-! ## loadPrivateKeys -/

/-- What `dropWhile p` leaves satisfies `p` throughout only when the whole list does. -/
theorem dropWhile_all_iff (p : Char → Bool) (cs : List Char) :
    (∀ x ∈ cs.dropWhile p, p x = true) ↔ ∀ x ∈ cs, p x = true := by
  induction cs with
  | nil => simp
  | cons c t ih =>
    by_cases hc : p c = true
    · simp [List.dropWhile_cons, hc, ih]
    · simp [List.dropWhile_cons, hc]

/-- Trimming leaves nothing exactly when every character is white space. -/
theorem trimChars_eq_nil_iff (cs : List Char) :
    trimChars cs = [] ↔ ∀ x ∈ cs, isWhiteSpace x = true := by
  unfold trimChars
  rw [List.reverse_eq_nil_iff, List.dropWhile_eq_nil_iff]
  simp only [List.mem_reverse]
  exact dropWhile_all_iff isWhiteSpace cs

/-- A line trims to the empty string exactly when it is blank. -/
theorem trim_eq_empty_iff (line : String) : trim line = "" ↔ isBlank line = true := by
  unfold trim isBlank
  rw [List.all_eq_true, ← trimChars_eq_nil_iff]
  constructor
  · intro h
    have := congrArg String.toList h
    simpa using this
  · intro h
    rw [h]

/-- Splitting yields at least one piece. -/
theorem splitChars_ne_nil (sep : Char) (cs : List Char) : splitChars sep cs ≠ [] := by
  cases cs with
  | nil => simp [splitChars]
  | cons c t =>
    by_cases h : c = sep
    · simp [splitChars, h]
    · simp only [splitChars, h, if_false]
      split <;> simp

/-- Joining pieces whose first piece starts with `c` starts with `c`. -/
theorem intercalate_cons_cons (sep : List Char) (c : Char) (line : List Char)
    (lines : List (List Char)) :
    List.intercalate sep ((c :: line) :: lines) = c :: List.intercalate sep (line :: lines) := by
  cases lines <;> simp [List.intercalate, List.intersperse]

/-- Splitting is inverse to joining with the separator, and no piece holds the separator. -/
theorem splitChars_join (sep : Char) (cs : List Char) :
    List.intercalate [sep] (splitChars sep cs) = cs ∧
      ∀ line ∈ splitChars sep cs, sep ∉ line := by
  induction cs with
  | nil => simp [splitChars, List.intercalate]
  | cons c t ih =>
    have hne := splitChars_ne_nil sep t
    cases hs : splitChars sep t with
    | nil => exact absurd hs hne
    | cons line lines =>
      rw [hs] at ih
      by_cases h : c = sep
      · subst h
        simp only [splitChars, if_true, hs]
        refine ⟨?_, ?_⟩
        · have h1 := ih.1
          simp only [List.intercalate, List.intersperse] at h1 ⊢
          simp [h1]
        · intro l hl
          simp only [List.mem_cons] at hl
          rcases hl with rfl | hl
          · simp
          · exact ih.2 l (by simpa using hl)
      · simp only [splitChars, h, if_false, hs]
        refine ⟨?_, ?_⟩
        · rw [intercalate_cons_cons, ih.1]
        · intro l hl
          simp only [List.mem_cons] at hl
          rcases hl with rfl | hl
          · have := ih.2 line (by simp)
            simp only [List.mem_cons, not_or]
            exact ⟨fun e => h e.symm, this⟩
          · exact ih.2 l (by simp [hl])

/-- C9: for every content of the file, `loadPrivateKeys` returns the trimmed non-blank lines
of the file in file order: the list holds no empty string, is a sublist of the trimmed lines,
and holds every non-empty key as many times as the trimmed lines do. -/
theorem loadPrivateKeys_nonblank_lines (data : String) :
    ∃ privateKeys, loadPrivateKeys (.ok data) = .keys privateKeys ∧
      privateKeys = ((split data (Char.ofNat 10)).filter (fun line => !isBlank line)).map trim ∧
      "" ∉ privateKeys ∧
      privateKeys.Sublist ((split data (Char.ofNat 10)).map trim) ∧
      ∀ key, key ≠ "" →
        privateKeys.count key = ((split data (Char.ofNat 10)).map trim).count key := by
  refine ⟨_, rfl, ?_, ?_, ?_, ?_⟩
  · rw [List.filter_map]
    congr 1
    apply List.filter_congr
    intro line _
    simp only [Function.comp, JsVal.truthy]
    by_cases hb : isBlank line = true
    · simp [hb, (trim_eq_empty_iff line).2 hb]
    · have : trim line ≠ "" := fun h => hb ((trim_eq_empty_iff line).1 h)
      simp [hb, this]
  · simp [List.mem_filter, JsVal.truthy]
  · exact List.filter_sublist _
  · intro key hkey
    apply List.count_filter
    simp [JsVal.truthy, hkey]

/-- C9 on a file with surrounding white space, blank lines, a carriage return and a repeated
key. -/
theorem loadPrivateKeys_nonblank_lines_witness :
    ∃ privateKeys, loadPrivateKeys (.ok " a \n\n  \nb\r\na\n") = .keys privateKeys ∧
      privateKeys = ["a", "b", "a"] := by
  obtain ⟨privateKeys, h1, h2, _⟩ := loadPrivateKeys_nonblank_lines " a \n\n  \nb\r\na\n"
  exact ⟨privateKeys, h1, by rw [h2]; decide⟩

/-! ## getOptimalGasPrice -/

/-- C1 (the code at a failing input): with a ceiling of 20 gwei and a live gas price of
100 gwei, `getOptimalGasPrice` returns normally with the live price, which is numerically
greater than the ceiling: the test `gasPrice > maxGasPrice` compares the decimal strings
and finds the string of 100 gwei, which starts with 1, below that of 20 gwei.  At the call
site in `mintNfts` the mint call is then made with a gas price of 100 gwei. -/
theorem getOptimalGasPrice_above_ceiling :
    getOptimalGasPrice (.ok ⟨100000000000⟩) ⟨20000000000⟩
        = ⟨[.getGasPrice], .ok ⟨100000000000⟩⟩ ∧
      (⟨20000000000⟩ : BigNumber).value < (⟨100000000000⟩ : BigNumber).value ∧
      Ev.contractCall (.str "mint") [.str "0xa1", .num 3, .num 0]
          ⟨.num 300000, ⟨100000000000⟩, ⟨0⟩⟩ ∈
        (mintNfts sampleUtils sampleWallet (sampleContract none none none (.ok sampleTx))
          (.str "0xa1") sampleConfig).trace := by
  decide

/-! ## isMintActive -/

/-- C6: when the contract exposes `mintingStarted`, that call is the only status call made
and, when it returns, its result is the result of `isMintActive`; `isPublicMintActive` is
called only when `mintingStarted` is absent, and `mintedTotal` or `supply` only when both are
absent. -/
theorem isMintActive_priority (contract : Contract) (config : Config) :
    (∀ outcome, contract.mintingStarted = some outcome →
      (isMintActive contract config).trace.filter Ev.isStatusCall = [.mintingStarted] ∧
      ∀ v, outcome = .ok v → (isMintActive contract config).result = .ok v) ∧
    (.isPublicMintActive ∈ (isMintActive contract config).trace →
      contract.mintingStarted = none) ∧
    (∀ phaseID, (.mintedTotal phaseID ∈ (isMintActive contract config).trace ∨
        .supply ∈ (isMintActive contract config).trace) →
      contract.mintingStarted = none ∧ contract.isPublicMintActive = none) := by
  obtain ⟨ms, pm, mt, su, me⟩ := contract
  refine ⟨?_, ?_, ?_⟩
  · intro outcome h
    simp only at h
    subst h
    rcases outcome with e | v
    · cases e <;>
        simp [isMintActive, tryCatch, perform, run_bind_eq, run_pure_eq, Run.bind, Run.pure, say,
          readMessage, raise, Ev.isStatusCall]
    · simp [isMintActive, tryCatch, perform, Ev.isStatusCall]
  · intro h
    cases ms with
    | none => rfl
    | some o =>
      exfalso
      rcases o with e | v
      · cases e <;>
          simp [isMintActive, tryCatch, perform, run_bind_eq, run_pure_eq, Run.bind, Run.pure,
            say, readMessage, raise] at h
      · simp [isMintActive, tryCatch, perform] at h
  · intro phaseID h
    cases ms with
    | some o =>
      exfalso
      rcases o with e | v
      · cases e <;>
          simp [isMintActive, tryCatch, perform, run_bind_eq, run_pure_eq, Run.bind, Run.pure,
            say, readMessage, raise] at h
      · simp [isMintActive, tryCatch, perform] at h
    | none =>
      cases pm with
      | none => exact ⟨rfl, rfl⟩
      | some o =>
        exfalso
        rcases o with e | v
        · cases e <;>
            simp [isMintActive, tryCatch, perform, run_bind_eq, run_pure_eq, Run.bind, Run.pure,
              say, readMessage, raise] at h
        · simp [isMintActive, tryCatch, perform] at h

/-- C6 at a concrete contract that exposes all of `mintingStarted`, `mintedTotal` and
`supply`: only `mintingStarted` is called and its result is returned. -/
theorem isMintActive_priority_witness :
    (isMintActive (sampleContract (some (.ok (.bool false))) (some (.ok ⟨1⟩)) (some (.ok ⟨5⟩))
        (.ok sampleTx)) sampleConfig).trace.filter Ev.isStatusCall = [.mintingStarted] ∧
      (isMintActive (sampleContract (some (.ok (.bool false))) (some (.ok ⟨1⟩)) (some (.ok ⟨5⟩))
        (.ok sampleTx)) sampleConfig).result = .ok (.bool false) :=
  ⟨((isMintActive_priority _ sampleConfig).1 _ rfl).1,
    ((isMintActive_priority _ sampleConfig).1 _ rfl).2 _ rfl⟩

/-- C7 (counterexample): a `mintingStarted` call that throws `undefined` makes `isMintActive`
itself raise, because the handler reads `error.message`; and a `mintingStarted` call that
returns the number 1 makes `isMintActive` return that number, not a boolean. -/
theorem isMintActive_raises_or_returns_number :
    (isMintActive (sampleContract (some (.error .nullish)) none none (.ok sampleTx))
        sampleConfig).result = .error typeError ∧
      (isMintActive (sampleContract (some (.ok (.num 1))) none none (.ok sampleTx))
        sampleConfig).result = .ok (.num 1) := by
  decide

/-- When every status call made during probing answers regularly, `isMintActive` returns a
boolean, and that boolean is `false` if any status call made during probing throws. -/
theorem isMintActive_regular (contract : Contract) (config : Config)
    (h : ∀ e ∈ (isMintActive contract config).trace, contract.regularAt e = true) :
    ∃ b, (isMintActive contract config).result = .ok (.bool b) ∧
      ((∃ e ∈ (isMintActive contract config).trace, contract.threwAt e = true) → b = false) := by
  obtain ⟨ms, pm, mt, su, me⟩ := contract
  cases ms with
  | some o =>
    rcases o with e | v
    · cases e with
      | nullish =>
        simp [isMintActive, tryCatch, perform, run_bind_eq, run_pure_eq, Run.bind, Run.pure, say,
          readMessage, raise, Contract.regularAt, regularOutcome] at h
      | value m =>
        exact ⟨false, by
          simp [isMintActive, tryCatch, perform, run_bind_eq, run_pure_eq, Run.bind, Run.pure,
            say, readMessage, raise]⟩
    · cases v <;>
        simp [isMintActive, tryCatch, perform, Contract.regularAt, regularOutcome, JsVal.isBool,
          Contract.threwAt] at h ⊢
  | none =>
    cases pm with
    | some o =>
      rcases o with e | v
      · cases e with
        | nullish =>
          simp [isMintActive, tryCatch, perform, run_bind_eq, run_pure_eq, Run.bind, Run.pure,
            say, readMessage, raise, Contract.regularAt, regularOutcome] at h
        | value m =>
          exact ⟨false, by
            simp [isMintActive, tryCatch, perform, run_bind_eq, run_pure_eq, Run.bind, Run.pure,
              say, readMessage, raise]⟩
      · cases v <;>
          simp [isMintActive, tryCatch, perform, Contract.regularAt, regularOutcome,
            JsVal.isBool, Contract.threwAt] at h ⊢
    | none =>
      cases mt with
      | none =>
        exact ⟨true, by
          simp [isMintActive, tryCatch, run_bind_eq, run_pure_eq, Run.bind, Run.pure, say,
            Contract.threwAt]⟩
      | some f =>
        cases su with
        | none =>
          exact ⟨true, by
            simp [isMintActive, tryCatch, run_bind_eq, run_pure_eq, Run.bind, Run.pure, say,
              Contract.threwAt]⟩
        | some so =>
          cases hf : f (config.phaseID.or HashZero) with
          | error e =>
            cases e with
            | nullish =>
              simp [isMintActive, tryCatch, perform, run_bind_eq, run_pure_eq, Run.bind,
                Run.pure, say, readMessage, raise, Contract.regularAt, regularOutcome, hf] at h
            | value m =>
              exact ⟨false, by
                simp [isMintActive, tryCatch, perform, run_bind_eq, run_pure_eq, Run.bind,
                  Run.pure, say, readMessage, raise, hf]⟩
          | ok minted =>
            rcases so with e | supply
            · cases e with
              | nullish =>
                simp [isMintActive, tryCatch, perform, run_bind_eq, run_pure_eq, Run.bind,
                  Run.pure, say, readMessage, raise, Contract.regularAt, regularOutcome, hf] at h
              | value m =>
                exact ⟨false, by
                  simp [isMintActive, tryCatch, perform, run_bind_eq, run_pure_eq, Run.bind,
                    Run.pure, say, readMessage, raise, hf]⟩
            · refine ⟨minted.lt supply, ?_, ?_⟩
              · by_cases hge : minted.ge supply = true <;>
                  simp [isMintActive, tryCatch, perform, run_bind_eq, run_pure_eq, Run.bind,
                    Run.pure, say, hf, hge]
              · by_cases hge : minted.ge supply = true <;>
                  simp [isMintActive, tryCatch, perform, run_bind_eq, run_pure_eq, Run.bind,
                    Run.pure, say, hf, hge, Contract.threwAt]

/-- C7 (amended): when no status call made during probing throws `null` or `undefined`, and
`mintingStarted` and `isPublicMintActive` return booleans when consulted, `isMintActive`
returns a boolean, and that boolean is `false` if any status call made during probing
throws.  In every case the value returned by `mintingStarted`, or by `isPublicMintActive` when
`mintingStarted` is absent, is the result of `isMintActive`, unchanged. -/
theorem isMintActive_returns_boolean (contract : Contract) (config : Config) :
    ((∀ e ∈ (isMintActive contract config).trace, contract.regularAt e = true) →
      ∃ b, (isMintActive contract config).result = .ok (.bool b) ∧
        ((∃ e ∈ (isMintActive contract config).trace, contract.threwAt e = true) →
          b = false)) ∧
    (∀ v, contract.mintingStarted = some (.ok v) →
      (isMintActive contract config).result = .ok v) ∧
    (∀ v, contract.mintingStarted = none → contract.isPublicMintActive = some (.ok v) →
      (isMintActive contract config).result = .ok v) := by
  refine ⟨isMintActive_regular contract config, ?_, ?_⟩
  · intro v h
    simp [isMintActive, tryCatch, perform, h]
  · intro v h1 h2
    simp [isMintActive, tryCatch, perform, h1, h2]

/-- C7 (amended) at a contract whose `supply` call throws an `Error` object, where the result
is `false`, and at a contract without `mintingStarted` whose `isPublicMintActive` returns
`true`, where the result is `true`. -/
theorem isMintActive_returns_boolean_witness :
    (∃ b, (isMintActive (sampleContract none (some (.ok ⟨1⟩))
        (some (.error (.value (some "revert")))) (.ok sampleTx)) sampleConfig).result
          = .ok (.bool b) ∧
      ((∃ e ∈ (isMintActive (sampleContract none (some (.ok ⟨1⟩))
          (some (.error (.value (some "revert")))) (.ok sampleTx)) sampleConfig).trace,
        (sampleContract none (some (.ok ⟨1⟩)) (some (.error (.value (some "revert"))))
          (.ok sampleTx)).threwAt e = true) → b = false)) ∧
      (isMintActive ⟨none, some (.ok (.bool true)), none, none, fun _ => none⟩
        sampleConfig).result = .ok (.bool true) :=
  ⟨(isMintActive_returns_boolean _ sampleConfig).1 (by decide),
    (isMintActive_returns_boolean ⟨none, some (.ok (.bool true)), none, none, fun _ => none⟩
      sampleConfig).2.2 _ rfl rfl⟩

/-- C8 (the code at a failing input): with neither `mintingStarted` nor `isPublicMintActive`,
`mintedTotal` returning 500 and `supply` returning 1000, `isMintActive` logs that the mint
has finished and returns `false`, although 500 is numerically less than 1000: the decimal
string of 500 is not below that of 1000. -/
theorem isMintActive_minted_below_supply :
    isMintActive (sampleContract none (some (.ok ⟨500⟩)) (some (.ok ⟨1000⟩)) (.ok sampleTx))
        sampleConfig
        = ⟨[.mintedTotal HashZero, .supply, .log (.mintFinished HashZero)], .ok (.bool false)⟩ ∧
      (⟨500⟩ : BigNumber).value < (⟨1000⟩ : BigNumber).value := by
  decide

/-! ## mintNfts -/

/-- C2 (counterexample): with `mintParams = ["maxPerTx"]`, `maxPerTx` configured as 0 and
`mintQuantity = 3`, the built argument list is `[3]`, whereas the configured value or
`mintQuantity` is `[0]`: the operator `||` discards a configured value that is falsy. -/
theorem mintParams_discards_configured_zero :
    mintParams sampleWallet zeroCapConfig = [.num 3] ∧
      zeroCapConfig.mintParams.map (claimedParam sampleWallet zeroCapConfig) = [.num 0] := by
  decide

/-- C2 (amended): the argument list has the length of `mintParams`, its element at each
position is the substitution of the token at that position, where a configured value is used
when it is truthy and the default otherwise (as the operator `||` has it), and for
`["to", "amount", "price"]`, `mintQuantity = 3` and no `price` it is
`[wallet.address, 3, 0]`. -/
theorem mintParams_substitution (wallet : Wallet) (config : Config) :
    (mintParams wallet config).length = config.mintParams.length ∧
    (∀ (k : Nat) (token : JsVal), config.mintParams[k]? = some token →
      ∃ value, (mintParams wallet config)[k]? = some value ∧
        (token = .str "to" → value = wallet.address) ∧
        (token = .str "amount" ∨ token = .str "quantity" → value = config.mintQuantity) ∧
        (token = .str "phaseID" →
          value = if config.phaseID.truthy then config.phaseID else HashZero) ∧
        (token = .str "price" →
          value = if config.price.truthy then config.price else .num 0) ∧
        (token = .str "maxPerTx" →
          value = if config.maxPerTx.truthy then config.maxPerTx else config.mintQuantity) ∧
        (token = .str "maxPerUser" →
          value = if config.maxPerUser.truthy then config.maxPerUser else config.mintQuantity) ∧
        (token = .str "maxPerPhase" →
          value = if config.maxPerPhase.truthy then config.maxPerPhase else .num 10000) ∧
        (token = .str "nonce" →
          value = if config.nonce.truthy then config.nonce else HashZero) ∧
        (token = .str "signature" →
          value = if config.signature.truthy then config.signature else .str "0x") ∧
        (token ∉ recognisedTokens → value = token)) ∧
    (config.mintParams = [.str "to", .str "amount", .str "price"] →
      config.mintQuantity = .num 3 → config.price = .undefined →
      mintParams wallet config = [wallet.address, .num 3, .num 0]) := by
  refine ⟨by simp [mintParams], ?_, ?_⟩
  · intro k token hk
    refine ⟨mintParam wallet config token, by simp [mintParams, hk], ?_⟩
    refine ⟨?_, ?_, ?_, ?_, ?_, ?_, ?_, ?_, ?_, ?_⟩
    · rintro rfl; simp [mintParam]
    · rintro (rfl | rfl) <;> simp [mintParam]
    · rintro rfl; simp [mintParam, JsVal.or]
    · rintro rfl; simp [mintParam, JsVal.or]
    · rintro rfl; simp [mintParam, JsVal.or]
    · rintro rfl; simp [mintParam, JsVal.or]
    · rintro rfl; simp [mintParam, JsVal.or]
    · rintro rfl; simp [mintParam, JsVal.or]
    · rintro rfl; simp [mintParam, JsVal.or]
    · intro h
      simp only [recognisedTokens, List.mem_cons, List.mem_singleton, not_or, List.mem_nil_iff,
        or_false] at h
      obtain ⟨h1, h2, h3, h4, h5, h6, h7, h8, h9, h10⟩ := h
      simp [mintParam, h1, h2, h3, h4, h5, h6, h7, h8, h9, h10]
  · intro hp hq hprice
    simp [mintParams, mintParam, hp, hq, hprice, JsVal.or, JsVal.truthy]

/-- C2 (amended) at the configuration of the example: the built list is `[wallet.address, 3, 0]`. -/
theorem mintParams_substitution_witness :
    mintParams ⟨.str "0xa1", .ok ⟨1⟩⟩ sampleConfig = [.str "0xa1", .num 3, .num 0] :=
  (mintParams_substitution ⟨.str "0xa1", .ok ⟨1⟩⟩ sampleConfig).2.2 rfl rfl rfl

/-- A thrown value has a message exactly when it is a value with a string `message`. -/
theorem hasMessage_iff (e : Thrown) : e.hasMessage = true ↔ ∃ m, e = .value (some m) := by
  cases e with
  | nullish => simp [Thrown.hasMessage]
  | value m => cases m <;> simp [Thrown.hasMessage]

/-- The `TypeError` is a value with a string `message`. -/
theorem typeError_message :
    typeError = .value (some "TypeError: cannot read properties of undefined") := rfl

/-- The message of the `TypeError` does not contain `phaseID`. -/
theorem includes_typeError :
    includes "TypeError: cannot read properties of undefined" "phaseID" = false := by decide

/-- C3 (counterexample): when the mint call is rejected with a thrown string, a value that
has no `message`, the `catch` clause of `mintNfts` raises a `TypeError` at
`error.message.includes`, and `mintNfts` raises it to its caller. -/
theorem mintNfts_raises_on_thrown_string :
    (mintNfts sampleUtils sampleWallet (sampleContract none none none (.error (.value none)))
      (.str "0xa1") sampleConfig).result = .error typeError := by
  decide

set_option maxHeartbeats 1600000 in
/-- C3 (amended): when every call `mintNfts` makes directly throws only values whose `message`
is a string (every `Error` object), `mintNfts` returns normally with no value and makes the
contract call at most once; after a rejected mint call the run ends with the failure lines,
and after a failed confirmation wait likewise. -/
theorem mintNfts_completes (utils : Utils) (wallet : Wallet) (contract : Contract)
    (walletAddress : JsVal) (config : Config) (h : throwsErrorObjects utils contract config) :
    (mintNfts utils wallet contract walletAddress config).result = .ok () ∧
    ((mintNfts utils wallet contract walletAddress config).trace.filter
      Ev.isContractCall).length ≤ 1 ∧
    (∀ call params overrides m, contract.method config.mintFunction = some call →
      .contractCall config.mintFunction params overrides ∈
        (mintNfts utils wallet contract walletAddress config).trace →
      call params overrides = .error (.value (some m)) →
      (mintNfts utils wallet contract walletAddress config).trace.dropWhile
          (fun e => !e.isContractCall)
        = .contractCall config.mintFunction params overrides ::
            failureLines walletAddress m) ∧
    (∀ call params overrides tx m, contract.method config.mintFunction = some call →
      .contractCall config.mintFunction params overrides ∈
        (mintNfts utils wallet contract walletAddress config).trace →
      call params overrides = .ok tx → tx.wait = .error (.value (some m)) →
      (mintNfts utils wallet contract walletAddress config).trace.dropWhile
          (fun e => !e.isContractCall)
        = [.contractCall config.mintFunction params overrides, .log (.txSent tx.hash),
            .txWait tx.hash] ++ failureLines walletAddress m) := by
  obtain ⟨hpu, hpe, hcall, hwait⟩ := h
  cases hu : utils.parseUnits config.maxGasPriceGwei with
  | error e =>
    obtain ⟨m, rfl⟩ := (hasMessage_iff e).1 (hpu e hu)
    by_cases hi : includes m "phaseID" = true <;>
      simp [mintNfts, getOptimalGasPrice, tryCatch, perform, run_bind_eq, run_pure_eq,
              Run.bind, Run.pure, say, readMessage, raise, messageIncludes, Ev.isContractCall,
              typeError_message, includes_typeError, failureLines, hu, hi]
  | ok maxGasPrice =>
    cases hv : utils.parseEther config.mintValue with
    | error e =>
      obtain ⟨m, rfl⟩ := (hasMessage_iff e).1 (hpe e hv)
      rcases hg : wallet.getGasPrice with (_ | gm) | g <;>
      by_cases hi : includes m "phaseID" = true <;>
        simp [mintNfts, getOptimalGasPrice, tryCatch, perform, run_bind_eq, run_pure_eq,
              Run.bind, Run.pure, say, readMessage, raise, messageIncludes, Ev.isContractCall,
              typeError_message, includes_typeError, failureLines, hu, hv, hg, hi]
    | ok value =>
      cases hm : contract.method config.mintFunction with
      | none =>
        rcases hg : wallet.getGasPrice with (_ | gm) | g <;>
          simp [mintNfts, getOptimalGasPrice, tryCatch, perform, run_bind_eq, run_pure_eq,
              Run.bind, Run.pure, say, readMessage, raise, messageIncludes, Ev.isContractCall,
              typeError_message, includes_typeError, failureLines, hu, hv, hg, hm]
      | some call =>
        rcases hg : wallet.getGasPrice with (_ | gm) | g
        · simp [mintNfts, getOptimalGasPrice, tryCatch, perform, run_bind_eq, run_pure_eq,
              Run.bind, Run.pure, say, readMessage, raise, messageIncludes, Ev.isContractCall,
              typeError_message, includes_typeError, failureLines, hu, hv, hg, hm]
        ·
          cases hc : call (mintParams wallet config) ⟨config.gasLimit, maxGasPrice, value⟩ with
          | error e =>
            obtain ⟨m, rfl⟩ := (hasMessage_iff e).1 (hcall call _ _ e hm hc)
            by_cases hi : includes m "phaseID" = true <;>
            simp [mintNfts, getOptimalGasPrice, tryCatch, perform, run_bind_eq, run_pure_eq,
              Run.bind, Run.pure, say, readMessage, raise, messageIncludes, Ev.isContractCall,
              typeError_message, includes_typeError, failureLines, hu, hv, hg, hm, hc, hi] <;>
            first
              | done
              | (refine ⟨?_, ?_⟩ <;> intros <;> subst_vars <;> simp_all)
          | ok tx =>
            cases hw : tx.wait with
            | error e =>
              obtain ⟨m, rfl⟩ := (hasMessage_iff e).1 (hwait call _ _ tx e hm hc hw)
              by_cases hi : includes m "phaseID" = true <;>
              simp [mintNfts, getOptimalGasPrice, tryCatch, perform, run_bind_eq, run_pure_eq,
              Run.bind, Run.pure, say, readMessage, raise, messageIncludes, Ev.isContractCall,
              typeError_message, includes_typeError, failureLines, hu, hv, hg, hm, hc, hw, hi] <;>
            first
              | done
              | (refine ⟨?_, ?_⟩ <;> intros <;> subst_vars <;> simp_all)
            | ok receipt =>
              simp [mintNfts, getOptimalGasPrice, tryCatch, perform, run_bind_eq, run_pure_eq,
              Run.bind, Run.pure, say, readMessage, raise, messageIncludes, Ev.isContractCall,
              typeError_message, includes_typeError, failureLines, hu, hv, hg, hm, hc, hw]
              refine ⟨?_, ?_⟩ <;> intros <;> subst_vars <;> simp_all
        ·
          cases hc : call (mintParams wallet config) ⟨config.gasLimit, if g.gt maxGasPrice then maxGasPrice else g, value⟩ with
          | error e =>
            obtain ⟨m, rfl⟩ := (hasMessage_iff e).1 (hcall call _ _ e hm hc)
            by_cases hi : includes m "phaseID" = true <;>
            simp [mintNfts, getOptimalGasPrice, tryCatch, perform, run_bind_eq, run_pure_eq,
              Run.bind, Run.pure, say, readMessage, raise, messageIncludes, Ev.isContractCall,
              typeError_message, includes_typeError, failureLines, hu, hv, hg, hm, hc, hi] <;>
            first
              | done
              | (refine ⟨?_, ?_⟩ <;> intros <;> subst_vars <;> simp_all)
          | ok tx =>
            cases hw : tx.wait with
            | error e =>
              obtain ⟨m, rfl⟩ := (hasMessage_iff e).1 (hwait call _ _ tx e hm hc hw)
              by_cases hi : includes m "phaseID" = true <;>
              simp [mintNfts, getOptimalGasPrice, tryCatch, perform, run_bind_eq, run_pure_eq,
              Run.bind, Run.pure, say, readMessage, raise, messageIncludes, Ev.isContractCall,
              typeError_message, includes_typeError, failureLines, hu, hv, hg, hm, hc, hw, hi] <;>
            first
              | done
              | (refine ⟨?_, ?_⟩ <;> intros <;> subst_vars <;> simp_all)
            | ok receipt =>
              simp [mintNfts, getOptimalGasPrice, tryCatch, perform, run_bind_eq, run_pure_eq,
              Run.bind, Run.pure, say, readMessage, raise, messageIncludes, Ev.isContractCall,
              typeError_message, includes_typeError, failureLines, hu, hv, hg, hm, hc, hw]
              refine ⟨?_, ?_⟩ <;> intros <;> subst_vars <;> simp_all

/-- C3 (amended) at a mint call rejected with an `Error` object: `mintNfts` returns
normally. -/
theorem mintNfts_completes_witness :
    (mintNfts sampleUtils sampleWallet
      (sampleContract none none none (.error (.value (some "execution reverted"))))
      (.str "0xa1") sampleConfig).result = .ok () :=
  (mintNfts_completes sampleUtils sampleWallet
    (sampleContract none none none (.error (.value (some "execution reverted"))))
    (.str "0xa1") sampleConfig
    ⟨fun e h => by simp [sampleUtils] at h, fun e h => by simp [sampleUtils] at h,
      fun call params overrides e hm hc => by
        simp [sampleContract, sampleConfig] at hm
        subst hm
        simp at hc
        subst hc
        rfl,
      fun call params overrides tx e hm hc _ => by
        simp [sampleContract, sampleConfig] at hm
        subst hm
        simp at hc⟩).1

set_option maxHeartbeats 1600000 in
/-- Whatever the calls inside it yield, `mintNfts` returns normally or raises the `TypeError`
of its own `catch` clause, and none of its events is a step of the wallet loop. -/
theorem mintNfts_steps (utils : Utils) (wallet : Wallet) (contract : Contract)
    (walletAddress : JsVal) (config : Config) :
    ((mintNfts utils wallet contract walletAddress config).result = .ok () ∨
      (mintNfts utils wallet contract walletAddress config).result = .error typeError) ∧
    ∀ e ∈ (mintNfts utils wallet contract walletAddress config).trace, e.isLoopStep = false := by
  rcases hu : utils.parseUnits config.maxGasPriceGwei with (_ | _ | m) | maxGasPrice
  · simp [mintNfts, getOptimalGasPrice, tryCatch, perform, run_bind_eq, run_pure_eq, Run.bind,
      Run.pure, say, readMessage, raise, messageIncludes, Ev.isLoopStep, typeError_message,
      includes_typeError, hu]
  · simp [mintNfts, getOptimalGasPrice, tryCatch, perform, run_bind_eq, run_pure_eq, Run.bind,
      Run.pure, say, readMessage, raise, messageIncludes, Ev.isLoopStep, typeError_message,
      includes_typeError, hu]
  · by_cases hi : includes m "phaseID" = true <;>
    simp [mintNfts, getOptimalGasPrice, tryCatch, perform, run_bind_eq, run_pure_eq, Run.bind,
      Run.pure, say, readMessage, raise, messageIncludes, Ev.isLoopStep, typeError_message,
      includes_typeError, hu, hi]
  · rcases hg : wallet.getGasPrice with (_ | gm) | g <;>
    rcases hv : utils.parseEther config.mintValue with (_ | _ | m) | value
    · simp [mintNfts, getOptimalGasPrice, tryCatch, perform, run_bind_eq, run_pure_eq,
        Run.bind, Run.pure, say, readMessage, raise, messageIncludes, Ev.isLoopStep,
        typeError_message, includes_typeError, hu, hg, hv]
    · simp [mintNfts, getOptimalGasPrice, tryCatch, perform, run_bind_eq, run_pure_eq,
        Run.bind, Run.pure, say, readMessage, raise, messageIncludes, Ev.isLoopStep,
        typeError_message, includes_typeError, hu, hg, hv]
    · by_cases hi : includes m "phaseID" = true <;>
      simp [mintNfts, getOptimalGasPrice, tryCatch, perform, run_bind_eq, run_pure_eq,
        Run.bind, Run.pure, say, readMessage, raise, messageIncludes, Ev.isLoopStep,
        typeError_message, includes_typeError, hu, hg, hv, hi]
    · cases hm : contract.method config.mintFunction with
      | none =>
        simp [mintNfts, getOptimalGasPrice, tryCatch, perform, run_bind_eq, run_pure_eq,
          Run.bind, Run.pure, say, readMessage, raise, messageIncludes, Ev.isLoopStep,
          typeError_message, includes_typeError, hu, hg, hv, hm]
      | some call =>
        simp [mintNfts, getOptimalGasPrice, tryCatch, perform, run_bind_eq, run_pure_eq,
          Run.bind, Run.pure, say, readMessage, raise, messageIncludes, Ev.isLoopStep,
          typeError_message, includes_typeError, hu, hg, hv, hm]
    · simp [mintNfts, getOptimalGasPrice, tryCatch, perform, run_bind_eq, run_pure_eq,
        Run.bind, Run.pure, say, readMessage, raise, messageIncludes, Ev.isLoopStep,
        typeError_message, includes_typeError, hu, hg, hv]
    · simp [mintNfts, getOptimalGasPrice, tryCatch, perform, run_bind_eq, run_pure_eq,
        Run.bind, Run.pure, say, readMessage, raise, messageIncludes, Ev.isLoopStep,
        typeError_message, includes_typeError, hu, hg, hv]
    · by_cases hi : includes m "phaseID" = true <;>
      simp [mintNfts, getOptimalGasPrice, tryCatch, perform, run_bind_eq, run_pure_eq,
        Run.bind, Run.pure, say, readMessage, raise, messageIncludes, Ev.isLoopStep,
        typeError_message, includes_typeError, hu, hg, hv, hi]
    · cases hm : contract.method config.mintFunction with
      | none =>
        simp [mintNfts, getOptimalGasPrice, tryCatch, perform, run_bind_eq, run_pure_eq,
          Run.bind, Run.pure, say, readMessage, raise, messageIncludes, Ev.isLoopStep,
          typeError_message, includes_typeError, hu, hg, hv, hm]
      | some call =>
        rcases hc : call (mintParams wallet config) ⟨config.gasLimit, maxGasPrice, value⟩
          with (_ | _ | m) | tx
        · simp [mintNfts, getOptimalGasPrice, tryCatch, perform, run_bind_eq, run_pure_eq,
            Run.bind, Run.pure, say, readMessage, raise, messageIncludes, Ev.isLoopStep,
            typeError_message, includes_typeError, hu, hg, hv, hm, hc]
        · simp [mintNfts, getOptimalGasPrice, tryCatch, perform, run_bind_eq, run_pure_eq,
            Run.bind, Run.pure, say, readMessage, raise, messageIncludes, Ev.isLoopStep,
            typeError_message, includes_typeError, hu, hg, hv, hm, hc]
        · by_cases hi : includes m "phaseID" = true <;>
          simp [mintNfts, getOptimalGasPrice, tryCatch, perform, run_bind_eq, run_pure_eq,
            Run.bind, Run.pure, say, readMessage, raise, messageIncludes, Ev.isLoopStep,
            typeError_message, includes_typeError, hu, hg, hv, hm, hc, hi]
        · rcases hw : tx.wait with (_ | _ | m) | receipt
          · simp [mintNfts, getOptimalGasPrice, tryCatch, perform, run_bind_eq, run_pure_eq,
              Run.bind, Run.pure, say, readMessage, raise, messageIncludes, Ev.isLoopStep,
              typeError_message, includes_typeError, hu, hg, hv, hm, hc, hw]
          · simp [mintNfts, getOptimalGasPrice, tryCatch, perform, run_bind_eq, run_pure_eq,
              Run.bind, Run.pure, say, readMessage, raise, messageIncludes, Ev.isLoopStep,
              typeError_message, includes_typeError, hu, hg, hv, hm, hc, hw]
          · by_cases hi : includes m "phaseID" = true <;>
            simp [mintNfts, getOptimalGasPrice, tryCatch, perform, run_bind_eq, run_pure_eq,
              Run.bind, Run.pure, say, readMessage, raise, messageIncludes, Ev.isLoopStep,
              typeError_message, includes_typeError, hu, hg, hv, hm, hc, hw, hi]
          · simp [mintNfts, getOptimalGasPrice, tryCatch, perform, run_bind_eq, run_pure_eq,
              Run.bind, Run.pure, say, readMessage, raise, messageIncludes, Ev.isLoopStep,
              typeError_message, includes_typeError, hu, hg, hv, hm, hc, hw]
    · simp [mintNfts, getOptimalGasPrice, tryCatch, perform, run_bind_eq, run_pure_eq,
        Run.bind, Run.pure, say, readMessage, raise, messageIncludes, Ev.isLoopStep,
        typeError_message, includes_typeError, hu, hg, hv]
    · simp [mintNfts, getOptimalGasPrice, tryCatch, perform, run_bind_eq, run_pure_eq,
        Run.bind, Run.pure, say, readMessage, raise, messageIncludes, Ev.isLoopStep,
        typeError_message, includes_typeError, hu, hg, hv]
    · by_cases hi : includes m "phaseID" = true <;>
      simp [mintNfts, getOptimalGasPrice, tryCatch, perform, run_bind_eq, run_pure_eq,
        Run.bind, Run.pure, say, readMessage, raise, messageIncludes, Ev.isLoopStep,
        typeError_message, includes_typeError, hu, hg, hv, hi]
    · cases hm : contract.method config.mintFunction with
      | none =>
        simp [mintNfts, getOptimalGasPrice, tryCatch, perform, run_bind_eq, run_pure_eq,
          Run.bind, Run.pure, say, readMessage, raise, messageIncludes, Ev.isLoopStep,
          typeError_message, includes_typeError, hu, hg, hv, hm]
      | some call =>
        rcases hc : call (mintParams wallet config) ⟨config.gasLimit, if g.gt maxGasPrice then maxGasPrice else g, value⟩
          with (_ | _ | m) | tx
        · simp [mintNfts, getOptimalGasPrice, tryCatch, perform, run_bind_eq, run_pure_eq,
            Run.bind, Run.pure, say, readMessage, raise, messageIncludes, Ev.isLoopStep,
            typeError_message, includes_typeError, hu, hg, hv, hm, hc]
        · simp [mintNfts, getOptimalGasPrice, tryCatch, perform, run_bind_eq, run_pure_eq,
            Run.bind, Run.pure, say, readMessage, raise, messageIncludes, Ev.isLoopStep,
            typeError_message, includes_typeError, hu, hg, hv, hm, hc]
        · by_cases hi : includes m "phaseID" = true <;>
          simp [mintNfts, getOptimalGasPrice, tryCatch, perform, run_bind_eq, run_pure_eq,
            Run.bind, Run.pure, say, readMessage, raise, messageIncludes, Ev.isLoopStep,
            typeError_message, includes_typeError, hu, hg, hv, hm, hc, hi]
        · rcases hw : tx.wait with (_ | _ | m) | receipt
          · simp [mintNfts, getOptimalGasPrice, tryCatch, perform, run_bind_eq, run_pure_eq,
              Run.bind, Run.pure, say, readMessage, raise, messageIncludes, Ev.isLoopStep,
              typeError_message, includes_typeError, hu, hg, hv, hm, hc, hw]
          · simp [mintNfts, getOptimalGasPrice, tryCatch, perform, run_bind_eq, run_pure_eq,
              Run.bind, Run.pure, say, readMessage, raise, messageIncludes, Ev.isLoopStep,
              typeError_message, includes_typeError, hu, hg, hv, hm, hc, hw]
          · by_cases hi : includes m "phaseID" = true <;>
            simp [mintNfts, getOptimalGasPrice, tryCatch, perform, run_bind_eq, run_pure_eq,
              Run.bind, Run.pure, say, readMessage, raise, messageIncludes, Ev.isLoopStep,
              typeError_message, includes_typeError, hu, hg, hv, hm, hc, hw, hi]
          · simp [mintNfts, getOptimalGasPrice, tryCatch, perform, run_bind_eq, run_pure_eq,
              Run.bind, Run.pure, say, readMessage, raise, messageIncludes, Ev.isLoopStep,
              typeError_message, includes_typeError, hu, hg, hv, hm, hc, hw]

/-! ## The wallet loop of main -/

/-- One iteration of the wallet loop raises exactly when it aborts; it derives one wallet,
calls `mintNfts` for the addresses of `mintedBy`, sleeps as `reachesDelay` says, and does not
log the banner. -/
theorem processWallet_spec (config : Config) (total i : Nat) (privateKey : String)
    (world : Iteration) :
    (processWallet config total i privateKey world).result
      = (if world.aborts = true then .error typeError else .ok ()) ∧
    (processWallet config total i privateKey world).trace.filterMap Ev.newWalletKey
      = [privateKey] ∧
    (processWallet config total i privateKey world).trace.filter Ev.isMintNfts
      = (mintedBy world).map Ev.mintNfts ∧
    (processWallet config total i privateKey world).trace.filter Ev.isDelay
      = (if i < total - 1 ∧ reachesDelay config world = true then [.delay config.delayMs]
          else []) ∧
    .log .done ∉ (processWallet config total i privateKey world).trace := by
  obtain ⟨nw, gb, utils, contract⟩ := world
  rcases nw with (_ | m) | wallet
  · simp [processWallet, tryCatch, perform, run_bind_eq, run_pure_eq, Run.bind, Run.pure, say,
      readMessage, raise, Ev.newWalletKey, Ev.isMintNfts, Ev.isDelay, mintedBy, reachesDelay,
      Iteration.aborts]
  · simp [processWallet, tryCatch, perform, run_bind_eq, run_pure_eq, Run.bind, Run.pure, say,
      readMessage, raise, Ev.newWalletKey, Ev.isMintNfts, Ev.isDelay, mintedBy, reachesDelay,
      Iteration.aborts]
  · rcases gb with (_ | m) | balance
    · simp [processWallet, tryCatch, perform, run_bind_eq, run_pure_eq, Run.bind, Run.pure,
        say, readMessage, raise, Ev.newWalletKey, Ev.isMintNfts, Ev.isDelay, mintedBy,
        reachesDelay, Iteration.aborts]
    · simp [processWallet, tryCatch, perform, run_bind_eq, run_pure_eq, Run.bind, Run.pure,
        say, readMessage, raise, Ev.newWalletKey, Ev.isMintNfts, Ev.isDelay, mintedBy,
        reachesDelay, Iteration.aborts]
    · by_cases hz : balance.value = 0
      · simp [processWallet, tryCatch, perform, run_bind_eq, run_pure_eq, Run.bind, Run.pure,
          say, readMessage, raise, Ev.newWalletKey, Ev.isMintNfts, Ev.isDelay, mintedBy,
          reachesDelay, Iteration.aborts, BigNumber.isZero, hz]
      · obtain ⟨hres, hsteps⟩ := mintNfts_steps utils wallet contract wallet.address config
        have h1 : (mintNfts utils wallet contract wallet.address config).trace.filter
            Ev.isMintNfts = [] := by
          rw [List.filter_eq_nil_iff]
          intro e he
          have := hsteps e he
          cases e <;> simp_all [Ev.isLoopStep, Ev.isMintNfts]
        have h2 : (mintNfts utils wallet contract wallet.address config).trace.filter
            Ev.isDelay = [] := by
          rw [List.filter_eq_nil_iff]
          intro e he
          have := hsteps e he
          cases e <;> simp_all [Ev.isLoopStep, Ev.isDelay]
        have h3 : (mintNfts utils wallet contract wallet.address config).trace.filterMap
            Ev.newWalletKey = [] := by
          rw [List.filterMap_eq_nil_iff]
          intro e he
          have := hsteps e he
          cases e <;> simp_all [Ev.isLoopStep, Ev.newWalletKey]
        have h4 : Ev.log .done ∉ (mintNfts utils wallet contract wallet.address config).trace := by
          intro he
          have := hsteps _ he
          simp [Ev.isLoopStep] at this
        rcases hres with hr | hr <;> by_cases hlt : i < total - 1 <;>
          simp [processWallet, tryCatch, perform, run_bind_eq, run_pure_eq, Run.bind, Run.pure,
            say, readMessage, raise, Ev.newWalletKey, Ev.isMintNfts, Ev.isDelay, mintedBy,
            reachesDelay, Iteration.aborts, BigNumber.isZero, typeError_message, hz, hr, hlt,
            h1, h2, h3, h4]

/-- When the first iteration does not abort, the loop runs it and then the loop for the
rest. -/
theorem walletLoop_cons (config : Config) (total : Nat) (world : Nat → Iteration) (s : Nat)
    (privateKey : String) (rest : List String) (h : (world s).aborts = false) :
    walletLoop config total world s (privateKey :: rest)
      = ⟨(processWallet config total s privateKey (world s)).trace.map (fun e => (s, e)) ++
          (walletLoop config total world (s + 1) rest).trace,
        (walletLoop config total world (s + 1) rest).result⟩ := by
  have hr := (processWallet_spec config total s privateKey (world s)).1
  simp only [h, Bool.false_eq_true, if_false] at hr
  simp [walletLoop, hr]

/-- When the first iteration aborts, the loop ends with it, raising. -/
theorem walletLoop_cons_abort (config : Config) (total : Nat) (world : Nat → Iteration)
    (s : Nat) (privateKey : String) (rest : List String) (h : (world s).aborts = true) :
    walletLoop config total world s (privateKey :: rest)
      = ⟨(processWallet config total s privateKey (world s)).trace.map (fun e => (s, e)),
        .error typeError⟩ := by
  have hr := (processWallet_spec config total s privateKey (world s)).1
  simp only [h, if_true] at hr
  simp [walletLoop, hr]

/-- The iterations from `s` on are complete exactly when none of them aborts. -/
theorem completeFrom_iff (world : Nat → Iteration) :
    ∀ (n s : Nat), completeFrom world s n = true ↔
      ∀ k, s ≤ k → k < s + n → (world k).aborts = false := by
  intro n
  induction n with
  | zero => intro s; simp [completeFrom]; intro k h1 h2; omega
  | succ n ih =>
    intro s
    simp only [completeFrom, Bool.and_eq_true, Bool.not_eq_true', ih (s + 1)]
    constructor
    · rintro ⟨h0, h1⟩ k hk1 hk2
      by_cases hs : k = s
      · subst hs; exact h0
      · exact h1 k (by omega) (by omega)
    · intro h
      exact ⟨h s (le_refl s) (by omega), fun k hk1 hk2 => h k (by omega) (by omega)⟩

/-- The loop completes normally exactly when no iteration aborts. -/
theorem walletLoop_result (config : Config) (total : Nat) (world : Nat → Iteration) :
    ∀ (privateKeys : List String) (s : Nat),
      (walletLoop config total world s privateKeys).result
        = if completeFrom world s privateKeys.length = true then .ok ()
          else .error typeError := by
  intro privateKeys
  induction privateKeys with
  | nil => intro s; simp [walletLoop, completeFrom]
  | cons privateKey rest ih =>
    intro s
    by_cases h : (world s).aborts = true
    · rw [walletLoop_cons_abort _ _ _ _ _ _ h]
      simp [completeFrom, h]
    · simp only [Bool.not_eq_true] at h
      rw [walletLoop_cons _ _ _ _ _ _ h]
      simp [completeFrom, h, ih (s + 1)]

/-- The events of the loop started at counter `s` carry the counters from `s` on. -/
theorem walletLoop_index (config : Config) (total : Nat) (world : Nat → Iteration) :
    ∀ (privateKeys : List String) (s : Nat),
      ∀ p ∈ (walletLoop config total world s privateKeys).trace,
        s ≤ p.1 ∧ p.1 < s + privateKeys.length := by
  intro privateKeys
  induction privateKeys with
  | nil => intro s p hp; simp [walletLoop] at hp
  | cons privateKey rest ih =>
    intro s p hp
    by_cases h : (world s).aborts = true
    · rw [walletLoop_cons_abort _ _ _ _ _ _ h] at hp
      simp only [List.mem_map] at hp
      obtain ⟨e, _, rfl⟩ := hp
      simp
    · simp only [Bool.not_eq_true] at h
      rw [walletLoop_cons _ _ _ _ _ _ h] at hp
      simp only [List.mem_append, List.mem_map] at hp
      rcases hp with ⟨e, _, rfl⟩ | hp
      · simp
      · have := ih (s + 1) p hp
        simp only [List.length_cons]
        omega

/-- The counters of the events of the loop never decrease. -/
theorem walletLoop_sorted (config : Config) (total : Nat) (world : Nat → Iteration) :
    ∀ (privateKeys : List String) (s : Nat),
      ((walletLoop config total world s privateKeys).trace.map Prod.fst).Pairwise
        (fun a b => a ≤ b) := by
  intro privateKeys
  induction privateKeys with
  | nil => intro s; simp [walletLoop]
  | cons privateKey rest ih =>
    intro s
    have hstep : (((processWallet config total s privateKey (world s)).trace.map
        (fun e => (s, e))).map Prod.fst).Pairwise (fun a b => a ≤ b) := by
      rw [List.map_map, List.pairwise_map]
      exact List.pairwise_of_forall (fun _ _ => le_refl s)
    by_cases h : (world s).aborts = true
    · rw [walletLoop_cons_abort _ _ _ _ _ _ h]
      exact hstep
    · simp only [Bool.not_eq_true] at h
      rw [walletLoop_cons _ _ _ _ _ _ h]
      simp only [List.map_append, List.pairwise_append]
      refine ⟨hstep, ih (s + 1), ?_⟩
      intro a ha b hb
      simp only [List.mem_map] at ha hb
      obtain ⟨q, ⟨e, _, rfl⟩, rfl⟩ := ha
      obtain ⟨p, hp, rfl⟩ := hb
      have := walletLoop_index config total world rest (s + 1) p hp
      simp only
      omega

/-- The loop does not log the banner. -/
theorem walletLoop_no_banner (config : Config) (total : Nat) (world : Nat → Iteration) :
    ∀ (privateKeys : List String) (s : Nat),
      ∀ p ∈ (walletLoop config total world s privateKeys).trace, p.2 ≠ .log .done := by
  intro privateKeys
  induction privateKeys with
  | nil => intro s p hp; simp [walletLoop] at hp
  | cons privateKey rest ih =>
    intro s p hp
    have hstep : ∀ e ∈ (processWallet config total s privateKey (world s)).trace,
        (s, e).2 ≠ Ev.log .done := by
      intro e he h
      simp only at h
      subst h
      exact (processWallet_spec config total s privateKey (world s)).2.2.2.2 he
    by_cases h : (world s).aborts = true
    · rw [walletLoop_cons_abort _ _ _ _ _ _ h] at hp
      simp only [List.mem_map] at hp
      obtain ⟨e, he, rfl⟩ := hp
      exact hstep e he
    · simp only [Bool.not_eq_true] at h
      rw [walletLoop_cons _ _ _ _ _ _ h] at hp
      simp only [List.mem_append, List.mem_map] at hp
      rcases hp with ⟨e, he, rfl⟩ | hp
      · exact hstep e he
      · exact ih (s + 1) p hp

/-- Tagging the events of an iteration with its counter commutes with picking the wallet
derivations. -/
theorem newWalletAt_map (s : Nat) (trace : List Ev) :
    (trace.map (fun e => (s, e))).filterMap newWalletAt
      = (trace.filterMap Ev.newWalletKey).map (fun k => (s, k)) := by
  rw [List.filterMap_map, List.map_filterMap]
  rfl

/-- When no iteration aborts, the wallet derivations of the loop are those of the keys, in
order, one for each. -/
theorem walletLoop_newWallet (config : Config) (total : Nat) (world : Nat → Iteration) :
    ∀ (privateKeys : List String) (s : Nat),
      completeFrom world s privateKeys.length = true →
      (walletLoop config total world s privateKeys).trace.filterMap newWalletAt
        = privateKeys.enumFrom s := by
  intro privateKeys
  induction privateKeys with
  | nil => intro s _; simp [walletLoop]
  | cons privateKey rest ih =>
    intro s hc
    simp only [List.length_cons, completeFrom, Bool.and_eq_true, Bool.not_eq_true'] at hc
    rw [walletLoop_cons _ _ _ _ _ _ hc.1]
    simp only [List.filterMap_append, ih (s + 1) hc.2, List.enumFrom_cons, newWalletAt_map,
      (processWallet_spec config total s privateKey (world s)).2.1]
    rfl

/-- The events of a given kind with a given counter are those of that iteration, when the
loop gets to it. -/
theorem walletLoop_filter (config : Config) (total : Nat) (world : Nat → Iteration)
    (q : Ev → Bool) (expected : Nat → List Ev)
    (hstep : ∀ i privateKey,
      (processWallet config total i privateKey (world i)).trace.filter q = expected i) :
    ∀ (privateKeys : List String) (s j : Nat),
      (walletLoop config total world s privateKeys).trace.filter
          (fun p => decide (p.1 = j) && q p.2)
        = if s ≤ j ∧ j < s + privateKeys.length ∧ completeFrom world s (j - s) = true then
            (expected j).map (fun e => (j, e))
          else [] := by
  intro privateKeys
  induction privateKeys with
  | nil =>
    intro s j
    have hno : ¬ (s ≤ j ∧ j < s + ([] : List String).length ∧
        completeFrom world s (j - s) = true) := by
      simp only [List.length_nil]
      omega
    rw [if_neg hno]
    rfl
  | cons privateKey rest ih =>
    intro s j
    have hsame : List.filter (fun p : Nat × Ev => decide (p.1 = s) && q p.2)
        ((processWallet config total s privateKey (world s)).trace.map (fun e => (s, e)))
        = (expected s).map (fun e => (s, e)) := by
      rw [← hstep s privateKey, List.filter_map]
      congr 1
      apply List.filter_congr
      intro e _
      simp
    have hother : s ≠ j → List.filter (fun p : Nat × Ev => decide (p.1 = j) && q p.2)
        ((processWallet config total s privateKey (world s)).trace.map (fun e => (s, e)))
        = [] := by
      intro hj
      rw [List.filter_eq_nil_iff]
      intro p hp
      simp only [List.mem_map] at hp
      obtain ⟨e, _, rfl⟩ := hp
      simp [hj]
    by_cases hj : s = j
    · subst hj
      have hrange : s ≤ s ∧ s < s + (privateKey :: rest).length ∧
          completeFrom world s (s - s) = true := by
        simp [completeFrom]
      by_cases h : (world s).aborts = true
      · rw [walletLoop_cons_abort _ _ _ _ _ _ h, if_pos hrange]
        exact hsame
      · simp only [Bool.not_eq_true] at h
        rw [walletLoop_cons _ _ _ _ _ _ h, if_pos hrange]
        have hlater : ¬ (s + 1 ≤ s ∧ s < s + 1 + rest.length ∧
            completeFrom world (s + 1) (s - (s + 1)) = true) := by omega
        simp only [List.filter_append, ih (s + 1) s, if_neg hlater, List.append_nil]
        exact hsame
    · by_cases h : (world s).aborts = true
      · rw [walletLoop_cons_abort _ _ _ _ _ _ h]
        simp only [hother hj]
        have hno : ¬ (s ≤ j ∧ j < s + (privateKey :: rest).length ∧
            completeFrom world s (j - s) = true) := by
          rintro ⟨h1, _, h3⟩
          obtain ⟨n, hn⟩ : ∃ n, j - s = n + 1 := ⟨j - s - 1, by omega⟩
          rw [hn] at h3
          simp [completeFrom, h] at h3
        rw [if_neg hno]
      · simp only [Bool.not_eq_true] at h
        rw [walletLoop_cons _ _ _ _ _ _ h]
        simp only [List.filter_append, hother hj, List.nil_append, ih (s + 1) j]
        by_cases hlt : s + 1 ≤ j
        · obtain ⟨n, hn⟩ : ∃ n, j - s = n + 1 := ⟨j - s - 1, by omega⟩
          have hn2 : j - (s + 1) = n := by omega
          have hc : completeFrom world s (j - s) = completeFrom world (s + 1) (j - (s + 1)) := by
            rw [hn, hn2]
            simp [completeFrom, h]
          have hlen : (j < s + 1 + rest.length) ↔ (j < s + (privateKey :: rest).length) := by
            simp only [List.length_cons]
            omega
          have hle : s ≤ j := by omega
          simp only [hlt, hle, true_and, hlen, hc]
        · have h1 : ¬ (s + 1 ≤ j ∧ j < s + 1 + rest.length ∧
              completeFrom world (s + 1) (j - (s + 1)) = true) := by omega
          have h2 : ¬ (s ≤ j ∧ j < s + (privateKey :: rest).length ∧
              completeFrom world s (j - s) = true) := by omega
          rw [if_neg h1, if_neg h2]

/-- The events of `main` of a kind other than the banner are those of the loop. -/
theorem main_filter (config : Config) (privateKeys : List String) (world : Nat → Iteration)
    (q : Nat × Ev → Bool) (hq : q (privateKeys.length, .log .done) = false) :
    (main config privateKeys world).trace.filter q
      = (walletLoop config privateKeys.length world 0 privateKeys).trace.filter q := by
  unfold main
  cases hr : (walletLoop config privateKeys.length world 0 privateKeys).result with
  | error e => simp [hr]
  | ok u => simp [hr, List.filter_append, hq]

/-- When no iteration aborts, the run of `main` is the run of the loop followed by the
banner. -/
theorem main_eq (config : Config) (privateKeys : List String) (world : Nat → Iteration)
    (h : completeFrom world 0 privateKeys.length = true) :
    main config privateKeys world
      = ⟨(walletLoop config privateKeys.length world 0 privateKeys).trace ++
          [(privateKeys.length, .log .done)], .ok ()⟩ := by
  simp [main, walletLoop_result, h]

/-- C4 (counterexample): with two funded wallets, when the balance lookup of the first throws
`undefined`, the `catch` clause of the loop raises at `error.message`: `main` raises, logs no
banner, and derives the first wallet only. -/
theorem main_aborts_on_undefined :
    (main sampleConfig ["k0", "k1"] abortingWorld).result = .error typeError ∧
      (main sampleConfig ["k0", "k1"] abortingWorld).trace.filter
        (fun p => p.2 == .log .done) = [] ∧
      (main sampleConfig ["k0", "k1"] abortingWorld).trace.filterMap newWalletAt
        = [(0, "k0")] := by
  decide

/-- C4 (amended): for every list of keys and every outcome of every iteration in which no
iteration aborts (no wallet derivation and no balance lookup made throws `null` or
`undefined`; a failure with an `Error` object, a zero balance, a failed or a successful mint
are all allowed), the run of `main` from the wallet loop on completes normally, ends with the
completion banner (logged once), derives the wallets for the keys at positions 0 to N - 1 in
file order, each once, and every event of an iteration precedes every event of a later
iteration. -/
theorem main_processes_every_wallet (config : Config) (privateKeys : List String)
    (world : Nat → Iteration)
    (h : ∀ i, i < privateKeys.length → (world i).aborts = false) :
    (main config privateKeys world).result = .ok () ∧
    (main config privateKeys world).trace.getLast? = some (privateKeys.length, .log .done) ∧
    (main config privateKeys world).trace.filter (fun p => p.2 == .log .done)
      = [(privateKeys.length, .log .done)] ∧
    (main config privateKeys world).trace.filterMap newWalletAt = privateKeys.enum ∧
    ((main config privateKeys world).trace.map Prod.fst).Pairwise (fun a b => a ≤ b) := by
  have hc : completeFrom world 0 privateKeys.length = true :=
    (completeFrom_iff world privateKeys.length 0).2 (fun k _ hk => h k (by omega))
  rw [main_eq config privateKeys world hc]
  refine ⟨rfl, by simp, ?_, ?_, ?_⟩
  · have h0 : (walletLoop config privateKeys.length world 0 privateKeys).trace.filter
        (fun p => p.2 == .log .done) = [] := by
      rw [List.filter_eq_nil_iff]
      intro p hp
      simpa using walletLoop_no_banner config privateKeys.length world privateKeys 0 p hp
    simp [List.filter_append, h0]
  · simp [List.filterMap_append, walletLoop_newWallet config privateKeys.length world
      privateKeys 0 hc, newWalletAt, Ev.newWalletKey, List.enum]
  · simp only [List.map_append, List.pairwise_append]
    refine ⟨walletLoop_sorted config privateKeys.length world privateKeys 0, by simp, ?_⟩
    intro a ha b hb
    simp only [List.mem_map] at ha
    obtain ⟨p, hp, rfl⟩ := ha
    have := walletLoop_index config privateKeys.length world privateKeys 0 p hp
    simp at hb
    omega

/-- C4 (amended) on three wallets, of which the first has zero balance and the derivation of
the second fails with an `Error` object: `main` completes and derives all three in order. -/
theorem main_processes_every_wallet_witness :
    (main sampleConfig ["k0", "k1", "k2"] sampleWorld).result = .ok () ∧
      (main sampleConfig ["k0", "k1", "k2"] sampleWorld).trace.filterMap newWalletAt
        = [(0, "k0"), (1, "k1"), (2, "k2")] :=
  ⟨(main_processes_every_wallet sampleConfig ["k0", "k1", "k2"] sampleWorld (by decide)).1,
    (main_processes_every_wallet sampleConfig ["k0", "k1", "k2"] sampleWorld
      (by decide)).2.2.2.1⟩

/-- C5: when the loop gets to position `i` (no earlier iteration aborts) and the derivation
and the balance lookup of the wallet at position `i` succeed, `mintNfts` is called in
iteration `i` exactly once, for that wallet, if the balance is not zero, and not at all if
the balance is zero. -/
theorem main_mints_iff_funded (config : Config) (privateKeys : List String)
    (world : Nat → Iteration) (i : Nat) (wallet : Wallet) (balance : BigNumber)
    (hi : i < privateKeys.length) (hreach : ∀ k, k < i → (world k).aborts = false)
    (hw : (world i).newWallet = .ok wallet) (hb : (world i).getBalance = .ok balance) :
    (main config privateKeys world).trace.filter (fun p => decide (p.1 = i) && p.2.isMintNfts)
      = if balance.value = 0 then [] else [(i, .mintNfts wallet.address)] := by
  rw [main_filter config privateKeys world _ (by simp [Ev.isMintNfts])]
  have h := walletLoop_filter config privateKeys.length world Ev.isMintNfts
    (fun j => (mintedBy (world j)).map Ev.mintNfts)
    (fun j privateKey => (processWallet_spec config privateKeys.length j privateKey (world j)).2.2.1)
    privateKeys 0 i
  have hc : completeFrom world 0 (i - 0) = true :=
    (completeFrom_iff world (i - 0) 0).2 (fun k _ hk => hreach k (by omega))
  have hr : 0 ≤ i ∧ i < 0 + privateKeys.length ∧ completeFrom world 0 (i - 0) = true :=
    ⟨Nat.zero_le i, by omega, hc⟩
  rw [h, if_pos hr]
  by_cases hz : balance.value = 0 <;> simp [mintedBy, hw, hb, hz]

/-- C5 on three wallets, of which the first has zero balance and the third is funded:
`mintNfts` is not called for the first and is called once for the third. -/
theorem main_mints_iff_funded_witness :
    (main sampleConfig ["k0", "k1", "k2"] sampleWorld).trace.filter
        (fun p => decide (p.1 = 0) && p.2.isMintNfts) = [] ∧
      (main sampleConfig ["k0", "k1", "k2"] sampleWorld).trace.filter
        (fun p => decide (p.1 = 2) && p.2.isMintNfts) = [(2, .mintNfts (.str "0xa1"))] :=
  ⟨main_mints_iff_funded sampleConfig ["k0", "k1", "k2"] sampleWorld 0 sampleWallet ⟨0⟩
      (by decide) (by decide) rfl rfl,
    main_mints_iff_funded sampleConfig ["k0", "k1", "k2"] sampleWorld 2 sampleWallet ⟨5⟩
      (by decide) (by decide) rfl rfl⟩

/-- C10 (counterexample): with three wallets, of which the first has zero balance and the
derivation of the second fails, `main` does not sleep at all, although neither of these two
wallets is the last. -/
theorem main_skips_delay :
    (main sampleConfig ["k0", "k1", "k2"] sampleWorld).trace.filter (fun p => p.2.isDelay)
      = [] := by
  decide

/-- C10 (amended): `main` sleeps `delayMs` in iteration `j`, once, exactly when wallet `j` is
not the last, the loop gets to it (no earlier iteration aborts) and the iteration reached the
end of the `try` block, that is, the wallet was derived, its balance was fetched and not
zero, and `mintNfts` returned normally; after a zero-balance skip, a caught failure or the
last wallet it does not sleep. -/
theorem main_delay_iff (config : Config) (privateKeys : List String) (world : Nat → Iteration)
    (j : Nat) :
    (main config privateKeys world).trace.filter (fun p => decide (p.1 = j) && p.2.isDelay)
      = if j < privateKeys.length - 1 ∧ (∀ k, k < j → (world k).aborts = false) ∧
            reachesDelay config (world j) = true then
          [(j, .delay config.delayMs)]
        else [] := by
  rw [main_filter config privateKeys world _ (by simp [Ev.isDelay])]
  have h := walletLoop_filter config privateKeys.length world Ev.isDelay
    (fun i => if i < privateKeys.length - 1 ∧ reachesDelay config (world i) = true then
      [.delay config.delayMs] else [])
    (fun i privateKey =>
      (processWallet_spec config privateKeys.length i privateKey (world i)).2.2.2.1)
    privateKeys 0 j
  have hc : completeFrom world 0 (j - 0) = true ↔ ∀ k, k < j → (world k).aborts = false := by
    rw [completeFrom_iff]
    constructor
    · intro hall k hk
      exact hall k (Nat.zero_le k) (by omega)
    · intro hall k _ hk
      exact hall k (by omega)
  rw [h]
  by_cases h1 : j < privateKeys.length - 1 ∧ (∀ k, k < j → (world k).aborts = false) ∧
      reachesDelay config (world j) = true
  · have h2 : 0 ≤ j ∧ j < 0 + privateKeys.length ∧ completeFrom world 0 (j - 0) = true :=
      ⟨Nat.zero_le j, by omega, hc.2 h1.2.1⟩
    rw [if_pos h1, if_pos h2, if_pos ⟨h1.1, h1.2.2⟩]
    rfl
  · rw [if_neg h1]
    by_cases h2 : 0 ≤ j ∧ j < 0 + privateKeys.length ∧ completeFrom world 0 (j - 0) = true
    · rw [if_pos h2]
      have h3 : ¬ (j < privateKeys.length - 1 ∧ reachesDelay config (world j) = true) :=
        fun h3 => h1 ⟨h3.1, hc.1 h2.2.2, h3.2⟩
      rw [if_neg h3]
      rfl
    · rw [if_neg h2]

end MintApex
